import Mathlib

/-!
Verification of the tinyjson library (a minimalistic JSON tokenizer/parser).

The embedding models byte buffers as `List Nat` (each element a byte value),
Go panics as an explicit error type, and the stateful cursor (`Raw`) as
explicit state passing: every operation takes the unconsumed remainder and
returns the new remainder.  Machine integers are modelled as `Nat`/`Int`
with explicit range checks where the Go code (via `strconv`) performs them.
-/

/-- Outcome of a Go panic in tinyjson.  The library aborts in exactly two
deliberate ways: `panic("invalid JSON")` (a fixed grammar-violation message)
and `panic("unexpected JSON: " + t.Raw())` (a message carrying the offending
token raw text).  `runtimeError` models Go runtime panics (out-of-range
slicing or indexing) that the code can also hit, e.g. `data[start+4:]` on a
truncated literal.  `outOfFuel` is an artifact of the fuelled encoding of the
recursive traversal loops; it never occurs for the fuel budgets used by the
top-level wrappers in this development. -/
inductive GoPanic where
  | invalidJSON : GoPanic
  | unexpectedJSON : List Nat → GoPanic
  | runtimeError : GoPanic
  | outOfFuel : GoPanic
deriving DecidableEq

/-- Model of `isWhitespace`: space, newline, carriage return, tab. -/
def isWhitespace (b : Nat) : Bool :=
  b == 32 || b == 10 || b == 13 || b == 9

/-- Model of the `kindByByte` lookup table.  Kinds are byte values:
123 `{`, 125 `}`, 91 `[`, 93 `]`, 34 `"`, 57 Number, 116 true, 102 false,
110 null, 58 colon, 44 comma, 0 EOF/unclassified.  The Go table maps the
bytes `-`, `.` and the ten digits to Number (57); all bytes without an
entry map to 0. -/
def kindByByte (c : Nat) : Nat :=
  match c with
  | 123 => 123
  | 125 => 125
  | 91 => 91
  | 93 => 93
  | 34 => 34
  | 45 | 46 | 48 | 49 | 50 | 51 | 52 | 53 | 54 | 55 | 56 | 57 => 57
  | 116 => 116
  | 102 => 102
  | 110 => 110
  | 58 => 58
  | 44 => 44
  | _ => 0

/-- The leading-whitespace-skipping loop shared by `peekNextTokenKind` and
`nextToken` (the `for { if start == n ... if !isWhitespace(data[start]) break }`
prologue). -/
def skipWS : List Nat → List Nat
  | [] => []
  | c :: rest => if isWhitespace c then skipWS rest else c :: rest

/-- Model of `peekNextTokenKind`: returns the kind of the first
non-whitespace byte together with the remainder starting at that byte
(`nil`, modelled `[]`, at end of input). -/
def peekNextTokenKind (data : List Nat) : Nat × List Nat :=
  match skipWS data with
  | [] => (0, [])
  | c :: rest => (kindByByte c, c :: rest)

/-- Model of the `scanString` loop body from index 1 on: scan to the first
unescaped closing quote (byte 34); a backslash (92) unconditionally skips the
following byte.  Returns the consumed span (closing quote included) and the
remainder; hitting end of input is `panic("invalid JSON")`. -/
def scanStringBody : List Nat → Except GoPanic (List Nat × List Nat)
  | [] => .error .invalidJSON
  | 34 :: rest => .ok ([34], rest)
  | 92 :: [] => .error .invalidJSON
  | 92 :: d :: rest =>
    (scanStringBody rest).map (fun p => (92 :: d :: p.1, p.2))
  | c :: rest =>
    (scanStringBody rest).map (fun p => (c :: p.1, p.2))

/-- Model of `scanString`: byte 0 (the opening quote) is consumed
unconditionally, then `scanStringBody` runs from index 1. -/
def scanString : List Nat → Except GoPanic (List Nat × List Nat)
  | [] => .error .invalidJSON
  | c :: rest => (scanStringBody rest).map (fun p => (c :: p.1, p.2))

/-- Membership in the number-token character set `{0-9, '.', 'e', 'E', '+', '-'}`
of `scanNumber`. -/
def isNumChar (c : Nat) : Bool :=
  (decide (48 ≤ c) && decide (c ≤ 57)) || c == 46 || c == 101 || c == 69 ||
    c == 43 || c == 45

/-- Model of `scanNumber`: greedily take the maximal prefix of bytes in the
number character set; the remainder starts at the first non-member byte. -/
def scanNumber (data : List Nat) : List Nat × List Nat :=
  (data.takeWhile isNumChar, data.dropWhile isNumChar)

/-- A `Token` is `nil` (`none`) at end of input, otherwise a non-empty byte
span. -/
def Token := Option (List Nat)

/-- Model of `Token.Raw`: empty for the `nil` token, otherwise the token
bytes. -/
def tokRaw (t : Token) : List Nat := t.getD []

/-- Model of `Token.Kind`: 0 (EOF) for the `nil` token, otherwise
`kindByByte` of the first byte. -/
def tokKind (t : Token) : Nat :=
  match t with
  | none => 0
  | some l => kindByByte (l.headD 0)

/-- Dispatch of `nextToken` on the first byte (its switch statement, reached
after the whitespace loop).  Literal tokens (`true`, `false`, `null`) are
recognized by first letter and a fixed consumed length with the canonical
constant returned as the token; the slice `data[start+4:]` (resp. `+5`) is a
Go runtime panic when fewer bytes remain, modelled as `runtimeError`. -/
def nextTokenCore : List Nat → Except GoPanic (Token × List Nat)
  | [] => .ok (none, [])
  | c :: rest =>
    if c = 34 then
      (scanString (c :: rest)).map (fun p => (some p.1, p.2))
    else if c = 116 then
      if 3 ≤ rest.length then .ok (some [116, 114, 117, 101], rest.drop 3)
      else .error .runtimeError
    else if c = 102 then
      if 4 ≤ rest.length then .ok (some [102, 97, 108, 115, 101], rest.drop 4)
      else .error .runtimeError
    else if c = 110 then
      if 3 ≤ rest.length then .ok (some [110, 117, 108, 108], rest.drop 3)
      else .error .runtimeError
    else if kindByByte c = 57 then
      .ok (some (scanNumber (c :: rest)).1, (scanNumber (c :: rest)).2)
    else if kindByByte c ≠ 0 then
      .ok (some [c], rest)
    else
      .error .invalidJSON

/-- Model of `nextToken`: skip whitespace, then dispatch on the first byte
(`nextTokenCore` is the switch following the whitespace loop). -/
def nextToken (data : List Nat) : Except GoPanic (Token × List Nat) :=
  nextTokenCore (skipWS data)

/-- Model of `hasEscape`: does the string body contain a backslash. -/
def hasEscape (s : List Nat) : Bool := s.any (· == 92)

/-- Value of a hexadecimal digit byte, as accepted by
`strconv.ParseUint(_, 16, 32)` on the four bytes after `\u`. -/
def hexDigitVal (c : Nat) : Option Nat :=
  if 48 ≤ c ∧ c ≤ 57 then some (c - 48)
  else if 97 ≤ c ∧ c ≤ 102 then some (c - 87)
  else if 65 ≤ c ∧ c ≤ 70 then some (c - 55)
  else none

/-- Model of `strings.Builder.WriteRune` for code points up to 0xFFFF (the
range producible by a single `\uXXXX` escape): UTF-8 encoding, with UTF-16
surrogate halves (0xD800-0xDFFF, invalid runes in Go) replaced by U+FFFD. -/
def writeRune (u : Nat) : List Nat :=
  let u := if 55296 ≤ u ∧ u ≤ 57343 then 65533 else u
  if u < 128 then [u]
  else if u < 2048 then [192 + u / 64, 128 + u % 64]
  else [224 + u / 4096, 128 + (u / 64) % 64, 128 + u % 64]

/-- Model of the escape-processing loop of `unquoteString` over the string
body: plain bytes are copied; after a backslash, `b f n r t` become their
control characters, `u` consumes exactly four hex digits (fatal if fewer
than four bytes remain or any is not hex) and writes the code point, and any
other byte is passed through verbatim; a backslash at the end of the body is
fatal. -/
def unqLoop : List Nat → Except GoPanic (List Nat)
  | [] => .ok []
  | 92 :: rest =>
    match rest with
    | [] => .error .invalidJSON
    | 98 :: rest2 => (unqLoop rest2).map (fun l => 8 :: l)
    | 102 :: rest2 => (unqLoop rest2).map (fun l => 12 :: l)
    | 110 :: rest2 => (unqLoop rest2).map (fun l => 10 :: l)
    | 114 :: rest2 => (unqLoop rest2).map (fun l => 13 :: l)
    | 116 :: rest2 => (unqLoop rest2).map (fun l => 9 :: l)
    | 117 :: rest2 =>
      match rest2 with
      | h1 :: h2 :: h3 :: h4 :: rest3 =>
        match hexDigitVal h1, hexDigitVal h2, hexDigitVal h3, hexDigitVal h4 with
        | some a, some b, some c, some d =>
          (unqLoop rest3).map (fun l => writeRune (4096 * a + 256 * b + 16 * c + d) ++ l)
        | _, _, _, _ => .error .invalidJSON
      | _ => .error .invalidJSON
    | c :: rest2 => (unqLoop rest2).map (fun l => c :: l)
  | c :: rest => (unqLoop rest).map (fun l => c :: l)

/-- Model of `unquoteString`: strip the surrounding quotes (`s[1 : n-1]`,
a Go runtime panic when the token has fewer than 2 bytes); without escapes
return the body as-is, except that the Go code then evaluates `&s[0]` which
is a runtime index-out-of-range panic on an empty body; with escapes run the
copy loop. -/
def unquoteString (s : List Nat) : Except GoPanic (List Nat) :=
  match s with
  | [] => .error .runtimeError
  | [_] => .error .runtimeError
  | _ =>
    let body := (s.drop 1).dropLast
    if hasEscape body then unqLoop body
    else if body.isEmpty then .error .runtimeError
    else .ok body

/-- Model of `Token.Str`: empty for EOF and null tokens, the unescaped body
for strings, the raw text for true, false and numbers; any other kind panics
with the token raw text. -/
def TokenStr (t : Token) : Except GoPanic (List Nat) :=
  if tokKind t = 0 ∨ tokKind t = 110 then .ok []
  else if tokKind t = 34 then unquoteString (tokRaw t)
  else if tokKind t = 116 ∨ tokKind t = 102 ∨ tokKind t = 57 then .ok (tokRaw t)
  else .error (.unexpectedJSON (tokRaw t))

/-- Decimal digit test used by the `strconv` models. -/
def isDigitB (c : Nat) : Bool := decide (48 ≤ c) && decide (c ≤ 57)

/-- Decimal value accumulator for a digit run; `none` on the first non-digit
byte. -/
def decVal (acc : Nat) : List Nat → Option Nat
  | [] => some acc
  | c :: rest => if isDigitB c then decVal (acc * 10 + (c - 48)) rest else none

/-- Value of a non-empty run of decimal digit bytes; `none` if empty or if
any byte is not a digit. -/
def decDigits (s : List Nat) : Option Nat :=
  match s with
  | [] => none
  | _ => decVal 0 s

/-- Model of `strconv.ParseUint(s, 10, 0)`: no sign prefix is accepted, the
digits must be non-empty decimal, and the value must fit in 64 bits (`uint`
is 64-bit on the platforms the tests run on; `bitSize 0` selects it). -/
def goParseUint (s : List Nat) : Option Nat :=
  match decDigits s with
  | some v => if v < 18446744073709551616 then some v else none
  | none => none

/-- Model of `strconv.ParseInt(s, 10, 0)`: one optional leading `+` or `-`,
then non-empty decimal digits, range-checked against signed 64-bit
(`bitSize 0` selects platform `int`, 64-bit on the platforms the tests run
on). -/
def goParseInt (s : List Nat) : Option Int :=
  match s with
  | 43 :: rest =>
    match decDigits rest with
    | some v => if v ≤ 9223372036854775807 then some (v : Int) else none
    | none => none
  | 45 :: rest =>
    match decDigits rest with
    | some v => if v ≤ 9223372036854775808 then some (-(v : Int)) else none
    | none => none
  | _ =>
    match decDigits s with
    | some v => if v ≤ 9223372036854775807 then some (v : Int) else none
    | none => none

/-- Model of `Token.Int`: requires Number kind and a successful
`strconv.ParseInt(raw, 10, 0)`; otherwise panics with the token raw text. -/
def TokenInt (t : Token) : Except GoPanic Int :=
  if tokKind t = 57 then
    match goParseInt (tokRaw t) with
    | some v => .ok v
    | none => .error (.unexpectedJSON (tokRaw t))
  else .error (.unexpectedJSON (tokRaw t))

/-- Model of `Token.Int64`: identical to `Token.Int` in the source (both call
`strconv.ParseInt(t.Raw(), 10, 0)`). -/
def TokenInt64 (t : Token) : Except GoPanic Int :=
  if tokKind t = 57 then
    match goParseInt (tokRaw t) with
    | some v => .ok v
    | none => .error (.unexpectedJSON (tokRaw t))
  else .error (.unexpectedJSON (tokRaw t))

/-- Model of `Token.Uint64`: requires Number kind and a successful
`strconv.ParseUint(raw, 10, 0)`; otherwise panics with the token raw text. -/
def TokenUint64 (t : Token) : Except GoPanic Nat :=
  if tokKind t = 57 then
    match goParseUint (tokRaw t) with
    | some v => .ok v
    | none => .error (.unexpectedJSON (tokRaw t))
  else .error (.unexpectedJSON (tokRaw t))

/-- Exponent-part check of the `strconv.ParseFloat` decimal syntax: either
nothing, or `e`/`E`, an optional sign, and at least one digit running to the
end of the text. -/
def expOK : List Nat → Bool
  | [] => true
  | 101 :: r =>
    let r2 := match r with | 43 :: x => x | 45 :: x => x | _ => r
    !r2.isEmpty && r2.all isDigitB
  | 69 :: r =>
    let r2 := match r with | 43 :: x => x | 45 :: x => x | _ => r
    !r2.isEmpty && r2.all isDigitB
  | _ => false

/-- Modelled from the spec: success of `strconv.ParseFloat(s, 64)` (standard
decimal parsing of the numeric domain, out of scope of src/), restricted to
the decimal syntax: an optional sign, a mantissa of decimal digits containing
at least one digit and at most one dot, and an optional exponent part.  The
special forms (infinities, NaN, hexadecimal floats) and the overflow range
check of the real parser are not modelled; no byte sequence drawn from the
lexer number character set reaches the special forms.  The parsed numeric
value itself (a 64-bit float) is not modelled. -/
def parseFloatOK (s : List Nat) : Bool :=
  let s1 := match s with | 43 :: r => r | 45 :: r => r | _ => s
  let ip := s1.takeWhile isDigitB
  let r1 := s1.dropWhile isDigitB
  match r1 with
  | 46 :: r2 =>
    let fp := r2.takeWhile isDigitB
    let r3 := r2.dropWhile isDigitB
    if ip.length + fp.length = 0 then false else expOK r3
  | _ => if ip.length = 0 then false else expOK r1

/-- Model of `Token.Float`: requires Number kind and a successful
`strconv.ParseFloat(raw, 64)`; otherwise panics with the token raw text.
The float value is represented by the token text (see `parseFloatOK`). -/
def TokenFloat (t : Token) : Except GoPanic (List Nat) :=
  if tokKind t = 57 then
    if parseFloatOK (tokRaw t) then .ok (tokRaw t)
    else .error (.unexpectedJSON (tokRaw t))
  else .error (.unexpectedJSON (tokRaw t))

/-- Model of `Token.Bool`: true for True kind, false for False kind,
otherwise panics with the token raw text. -/
def TokenBool (t : Token) : Except GoPanic Bool :=
  if tokKind t = 116 then .ok true
  else if tokKind t = 102 then .ok false
  else .error (.unexpectedJSON (tokRaw t))

/-- The token kinds of the shared scalar case list
`case String, Number, True, False, Null` in `Raw.Value` and `Raw.Skip`. -/
def isScalarKind (k : Nat) : Bool :=
  k == 34 || k == 57 || k == 116 || k == 102 || k == 110

/-- Dynamic value produced by `Raw.Value` (Go `any`): `absent` is Go `nil`,
`num` carries the token text of the parsed float (see `parseFloatOK`),
`str` an unescaped byte text, `obj` a key-value mapping with unique keys. -/
inductive JValue where
  | absent : JValue
  | bool : Bool → JValue
  | num : List Nat → JValue
  | str : List Nat → JValue
  | arr : List JValue → JValue
  | obj : List (List Nat × JValue) → JValue

/-- Assignment `result[key] = v` on the Go map modelled as an association
list with unique keys: replace the existing entry if present (last occurrence
wins), otherwise append. -/
def mapInsert (m : List (List Nat × JValue)) (k : List Nat) (v : JValue) :
    List (List Nat × JValue) :=
  if m.any (fun p => p.1 == k) then
    m.map (fun p => if p.1 == k then (k, v) else p)
  else m ++ [(k, v)]

/-- Model of `Token.Scalar`: EOF and Null give Go `nil` (`absent`), Number
parses as float, String unescapes, True and False give booleans; anything
else panics with the token raw text. -/
def TokenScalar (t : Token) : Except GoPanic JValue :=
  if tokKind t = 0 ∨ tokKind t = 110 then .ok .absent
  else if tokKind t = 57 then (TokenFloat t).map .num
  else if tokKind t = 34 then (unquoteString (tokRaw t)).map .str
  else if tokKind t = 116 then .ok (.bool true)
  else if tokKind t = 102 then .ok (.bool false)
  else .error (.unexpectedJSON (tokRaw t))

/-- Model of `Raw.ContinueObject` (fuelled: the `goto again` comma loop
consumes one fuel unit per iteration): consume an optional run of commas,
then either a String key that must be immediately followed by a Colon
(otherwise the fixed grammar panic), or `}` ending the object (`nil` key);
any other token is the fixed grammar panic. -/
def ContinueObjectF : Nat → List Nat → Except GoPanic (Token × List Nat)
  | 0, _ => .error .outOfFuel
  | f + 1, raw => do
    let (t, raw1) ← nextToken raw
    if tokKind t = 44 then ContinueObjectF f raw1
    else if tokKind t = 34 then do
      let (colon, raw2) ← nextToken raw1
      if tokKind colon = 58 then .ok (t, raw2)
      else .error .invalidJSON
    else if tokKind t = 125 then .ok (none, raw1)
    else .error .invalidJSON

/-- `Raw.ContinueObject` with sufficient fuel (every comma iteration consumes
at least one byte). -/
def ContinueObject (raw : List Nat) : Except GoPanic (Token × List Nat) :=
  ContinueObjectF (raw.length + 1) raw

/-- Model of `Raw.ContinueArray` (fuelled comma loop): peek, on Comma consume
and loop, on `]` consume and report no-more-elements, on EOF the fixed
grammar panic (unterminated array), otherwise report element-present without
consuming (beyond the whitespace the peek consumed). -/
def ContinueArrayF : Nat → List Nat → Except GoPanic (Bool × List Nat)
  | 0, _ => .error .outOfFuel
  | f + 1, raw =>
    if (peekNextTokenKind raw).1 = 44 then do
      let (_, raw2) ← nextToken (peekNextTokenKind raw).2
      ContinueArrayF f raw2
    else if (peekNextTokenKind raw).1 = 93 then do
      let (_, raw2) ← nextToken (peekNextTokenKind raw).2
      .ok (false, raw2)
    else if (peekNextTokenKind raw).1 = 0 then .error .invalidJSON
    else .ok (true, (peekNextTokenKind raw).2)

/-- `Raw.ContinueArray` with sufficient fuel. -/
def ContinueArray (raw : List Nat) : Except GoPanic (Bool × List Nat) :=
  ContinueArrayF (raw.length + 1) raw

/-- Model of `Raw.Null`: peek (which advances past leading whitespace in
place); if the next token kind is Null, consume it and report true;
otherwise report false with the cursor left where the peek put it. -/
def RawNull (raw : List Nat) : Except GoPanic (Bool × List Nat) :=
  if (peekNextTokenKind raw).1 = 110 then
    (nextToken (peekNextTokenKind raw).2).map (fun p => (true, p.2))
  else .ok (false, (peekNextTokenKind raw).2)

/-- Model of `Raw.EnsureEOF`: panics with the fixed grammar message if the
peeked kind is not EOF. -/
def EnsureEOF (raw : List Nat) : Except GoPanic Unit :=
  if (peekNextTokenKind raw).1 ≠ 0 then .error .invalidJSON else .ok ()

/-- Control mode for the fuelled encoding of `Raw.Value`: `top` is the body
of `Value` itself, `objLoop` the `for key := ContinueObject ...` loop with
the fields accumulated so far, `arrLoop` the `for ContinueArray ...` loop
with the elements accumulated so far. -/
inductive VMode where
  | top : VMode
  | objLoop : List (List Nat × JValue) → VMode
  | arrLoop : List JValue → VMode

/-- Model of `Raw.Value` (fuelled, one recursion through modes): `top`
consumes a token and dispatches — EOF gives `absent`, `{` enters the object
loop, `[` enters the array loop, scalar kinds go through `Token.Scalar`,
anything else is the fixed grammar panic.  The object loop takes the next
key from `ContinueObject`, unescapes it, materializes the value and stores
it (last key wins); the array loop steps `ContinueArray` and materializes
elements. -/
def ValueGo : Nat → VMode → List Nat → Except GoPanic (JValue × List Nat)
  | 0, _, _ => .error .outOfFuel
  | f + 1, .top, raw => do
    let (t, raw1) ← nextToken raw
    if tokKind t = 0 then .ok (.absent, raw1)
    else if tokKind t = 123 then ValueGo f (.objLoop []) raw1
    else if tokKind t = 91 then ValueGo f (.arrLoop []) raw1
    else if isScalarKind (tokKind t) then (TokenScalar t).map (fun v => (v, raw1))
    else .error .invalidJSON
  | f + 1, .objLoop acc, raw => do
    let (key, raw2) ← ContinueObject raw
    match key with
    | none => .ok (.obj acc, raw2)
    | some k => do
      let ks ← TokenStr (some k)
      let (v, raw3) ← ValueGo f .top raw2
      ValueGo f (.objLoop (mapInsert acc ks v)) raw3
  | f + 1, .arrLoop acc, raw => do
    let (more, raw2) ← ContinueArray raw
    if more then do
      let (v, raw3) ← ValueGo f .top raw2
      ValueGo f (.arrLoop (acc ++ [v])) raw3
    else .ok (.arr acc, raw2)

/-- `Raw.Value` with the standard fuel budget. -/
def Value (raw : List Nat) : Except GoPanic (JValue × List Nat) :=
  ValueGo (raw.length + 1) .top raw

/-- Control mode for the fuelled encoding of `Raw.Skip`, mirroring
`VMode` without accumulators. -/
inductive SMode where
  | top : SMode
  | objLoop : SMode
  | arrLoop : SMode

/-- Model of `Raw.Skip` (fuelled): same grammar traversal as `Raw.Value`
without materializing — `top` consumes a token and dispatches (EOF falls to
the default fixed grammar panic), the loops discard values recursively. -/
def SkipGo : Nat → SMode → List Nat → Except GoPanic (List Nat)
  | 0, _, _ => .error .outOfFuel
  | f + 1, .top, raw => do
    let (t, raw1) ← nextToken raw
    if tokKind t = 123 then SkipGo f .objLoop raw1
    else if tokKind t = 91 then SkipGo f .arrLoop raw1
    else if isScalarKind (tokKind t) then .ok raw1
    else .error .invalidJSON
  | f + 1, .objLoop, raw => do
    let (key, raw2) ← ContinueObject raw
    match key with
    | none => .ok raw2
    | some _ => do
      let raw3 ← SkipGo f .top raw2
      SkipGo f .objLoop raw3
  | f + 1, .arrLoop, raw => do
    let (more, raw2) ← ContinueArray raw
    if more then do
      let raw3 ← SkipGo f .top raw2
      SkipGo f .arrLoop raw3
    else .ok raw2

/-- `Raw.Skip` with the standard fuel budget (same budget as `Value`). -/
def RawSkip (raw : List Nat) : Except GoPanic (List Nat) :=
  SkipGo (raw.length + 1) .top raw

/-- Repeated `Raw.Next` until the EndOfInput token, collecting the raw byte
spans of the returned tokens (fuelled: each token consumes at least one
byte). -/
def tokenizeAllF : Nat → List Nat → Except GoPanic (List (List Nat))
  | 0, _ => .error .outOfFuel
  | f + 1, raw => do
    let (t, rem) ← nextToken raw
    match t with
    | none => .ok []
    | some tok => (tokenizeAllF f rem).map (fun ts => tok :: ts)

/-- Tokenize-to-exhaustion with sufficient fuel. -/
def tokenizeAll (raw : List Nat) : Except GoPanic (List (List Nat)) :=
  tokenizeAllF (raw.length + 1) raw

/-- Modelled from the spec: valid JSON documents (RFC 8259) spell the
literal tokens exactly as `true`, `false`, `null`; the lexer trusts this
and never re-validates the letters after the first.  This checker walks the
input exactly like `tokenizeAllF` and verifies that every literal token's
consumed span carries the canonical bytes, which is the only part of
validity the tokenization-coverage property needs. -/
def literalsExactF : Nat → List Nat → Bool
  | 0, _ => false
  | f + 1, raw =>
    match skipWS raw with
    | [] => true
    | c :: rest =>
      if c = 116 then
        (c :: rest).take 4 == [116, 114, 117, 101] &&
          literalsExactF f ((c :: rest).drop 4)
      else if c = 102 then
        (c :: rest).take 5 == [102, 97, 108, 115, 101] &&
          literalsExactF f ((c :: rest).drop 5)
      else if c = 110 then
        (c :: rest).take 4 == [110, 117, 108, 108] &&
          literalsExactF f ((c :: rest).drop 4)
      else
        match nextToken (c :: rest) with
        | .ok (some _, rem) => literalsExactF f rem
        | _ => true

/-- Literal-span exactness with the standard fuel budget. -/
def literalsExact (raw : List Nat) : Bool :=
  literalsExactF (raw.length + 1) raw

/-- The input decomposes as alternating whitespace runs and the given token
spans, in order: every input byte is covered exactly once, by a token span
or by an inter-token whitespace run. -/
inductive Covers : List Nat → List (List Nat) → Prop
  | nil : ∀ ws, (∀ b ∈ ws, isWhitespace b = true) → Covers ws []
  | cons : ∀ ws t rest ts, (∀ b ∈ ws, isWhitespace b = true) →
      Covers rest ts → Covers (ws ++ t ++ rest) (t :: ts)

/-! Helper lemmas about the lexer. -/

theorem skipWS_decomp (l : List Nat) :
    ∃ ws, (∀ b ∈ ws, isWhitespace b = true) ∧ l = ws ++ skipWS l := by
  induction l using skipWS.induct with
  | case1 => exact ⟨[], by simp, rfl⟩
  | case2 c rest h ih =>
    obtain ⟨ws, hall, hws⟩ := ih
    rw [skipWS, if_pos h]
    refine ⟨c :: ws, ?_, by rw [List.cons_append, ← hws]⟩
    intro b hb
    rcases List.mem_cons.mp hb with rfl | hb
    · exact h
    · exact hall b hb
  | case3 c rest h =>
    rw [skipWS, if_neg h]
    exact ⟨[], by simp, rfl⟩

theorem skipWS_head_not_ws {l : List Nat} {c : Nat} {r : List Nat}
    (h : skipWS l = c :: r) : isWhitespace c = false := by
  induction l using skipWS.induct with
  | case1 => simp [skipWS] at h
  | case2 c2 rest h2 ih =>
    rw [skipWS, if_pos h2] at h
    exact ih h
  | case3 c2 rest h2 =>
    rw [skipWS, if_neg h2] at h
    cases h
    exact Bool.eq_false_iff.mpr h2

theorem skipWS_cons_not_ws {c : Nat} {r : List Nat}
    (h : isWhitespace c = false) : skipWS (c :: r) = c :: r := by
  rw [skipWS, if_neg (by simp [h])]

theorem skipWS_idem (l : List Nat) : skipWS (skipWS l) = skipWS l := by
  cases h : skipWS l with
  | nil => rfl
  | cons c r => exact skipWS_cons_not_ws (skipWS_head_not_ws h)

theorem skipWS_nil_iff (l : List Nat) :
    skipWS l = [] ↔ ∀ b ∈ l, isWhitespace b = true := by
  induction l using skipWS.induct with
  | case1 => simp [skipWS]
  | case2 c rest h ih =>
    rw [skipWS, if_pos h]
    rw [ih]
    constructor
    · intro hall b hb
      rcases List.mem_cons.mp hb with rfl | hb
      · exact h
      · exact hall b hb
    · intro hall b hb
      exact hall b (List.mem_cons_of_mem _ hb)
  | case3 c rest h =>
    rw [skipWS, if_neg h]
    simp only [List.cons_ne_nil, false_iff]
    intro hall
    exact h (hall c (List.mem_cons_self c rest))

theorem peekNextTokenKind_snd (l : List Nat) :
    (peekNextTokenKind l).2 = skipWS l := by
  rw [peekNextTokenKind]
  cases h : skipWS l <;> simp

theorem peekNextTokenKind_skipWS (l : List Nat) :
    peekNextTokenKind (skipWS l) = peekNextTokenKind l := by
  rw [peekNextTokenKind, peekNextTokenKind, skipWS_idem]

theorem nextToken_skipWS (l : List Nat) :
    nextToken (skipWS l) = nextToken l := by
  rw [nextToken, nextToken, skipWS_idem]

theorem kindByByte_num_isNumChar {c : Nat} (h : kindByByte c = 57) :
    isNumChar c = true := by
  rw [kindByByte.eq_def] at h
  simp only [isNumChar, Bool.or_eq_true, Bool.and_eq_true, decide_eq_true_eq,
    beq_iff_eq]
  split at h <;> omega

theorem nextToken_of_skipWS_nil {l : List Nat} (h : skipWS l = []) :
    nextToken l = .ok (none, []) := by
  rw [nextToken, h]
  rfl

theorem scanStringBody_decomp {l tok rem : List Nat}
    (h : scanStringBody l = .ok (tok, rem)) : l = tok ++ rem := by
  induction l using scanStringBody.induct generalizing tok rem with
  | case1 => simp [scanStringBody] at h
  | case2 rest =>
    rw [scanStringBody] at h
    cases h
    rfl
  | case3 => simp [scanStringBody] at h
  | case4 d rest ih =>
    rw [scanStringBody] at h
    cases h2 : scanStringBody rest with
    | error e => rw [h2] at h; simp [Except.map] at h
    | ok p =>
      rw [h2] at h
      simp only [Except.map, Except.ok.injEq] at h
      cases h
      have := ih (h := by rw [h2])
      simp [this]
  | case5 c rest hne1 hne2 hne3 ih =>
    rw [scanStringBody.eq_5 c rest hne1 hne2 hne3] at h
    cases h2 : scanStringBody rest with
    | error e => rw [h2] at h; simp [Except.map] at h
    | ok p =>
      rw [h2] at h
      simp only [Except.map, Except.ok.injEq] at h
      cases h
      have := ih (h := by rw [h2])
      simp [this]

theorem scanString_decomp {l tok rem : List Nat}
    (h : scanString l = .ok (tok, rem)) : l = tok ++ rem := by
  cases l with
  | nil => simp [scanString] at h
  | cons c rest =>
    rw [scanString] at h
    cases h2 : scanStringBody rest with
    | error e => rw [h2] at h; simp [Except.map] at h
    | ok p =>
      rw [h2] at h
      simp only [Except.map, Except.ok.injEq] at h
      cases h
      have := scanStringBody_decomp h2
      simp [this]

@[simp] theorem except_ok_bind {α β γ : Type} (a : α) (f : α → Except γ β) :
    (Except.ok a >>= f) = f a := rfl

@[simp] theorem except_error_bind {α β γ : Type} (e : γ) (f : α → Except γ β) :
    ((Except.error e : Except γ α) >>= f) = .error e := rfl

@[simp] theorem except_map_ok {α β γ : Type} (f : α → β) (a : α) :
    Except.map f (Except.ok a : Except γ α) = .ok (f a) := rfl

@[simp] theorem except_map_error {α β γ : Type} (f : α → β) (e : γ) :
    Except.map f (Except.error e : Except γ α) = .error e := rfl

theorem scanString_head {c : Nat} {rest tok rem : List Nat}
    (h : scanString (c :: rest) = .ok (tok, rem)) : ∃ tl, tok = c :: tl := by
  rw [scanString] at h
  cases h2 : scanStringBody rest with
  | error e => rw [h2] at h; exact absurd h (by simp)
  | ok p =>
    rw [h2] at h
    simp only [except_map_ok, Except.ok.injEq, Prod.mk.injEq] at h
    exact ⟨p.1, h.1.symm⟩

/-- Shape inversion for `nextToken`: a successful call returns either the
EndOfInput token with an exhausted buffer, or a non-empty token whose first
byte is the first non-whitespace byte of the input and has a non-zero
kind. -/
theorem nextToken_shape {l : List Nat} {t : Token} {r : List Nat}
    (h : nextToken l = .ok (t, r)) :
    (t = none ∧ skipWS l = [] ∧ r = []) ∨
    (∃ c rest tl, skipWS l = c :: rest ∧ t = some (c :: tl) ∧ kindByByte c ≠ 0) := by
  rw [nextToken] at h
  cases hs : skipWS l with
  | nil => rw [hs] at h; cases h; exact .inl ⟨rfl, rfl, rfl⟩
  | cons c rest =>
    rw [hs, nextTokenCore] at h
    right
    by_cases h34 : c = 34
    · subst h34
      rw [if_pos rfl] at h
      cases h2 : scanString (34 :: rest) with
      | error e => rw [h2] at h; exact absurd h (by simp)
      | ok p =>
        obtain ⟨tl, htl⟩ := scanString_head h2
        rw [h2] at h
        simp only [except_map_ok, Except.ok.injEq, Prod.mk.injEq] at h
        exact ⟨34, rest, tl, rfl, by rw [← h.1, htl], by decide⟩
    · rw [if_neg h34] at h
      by_cases h116 : c = 116
      · subst h116
        rw [if_pos rfl] at h
        by_cases hlen : 3 ≤ rest.length
        · rw [if_pos hlen] at h
          cases h
          exact ⟨116, rest, [114, 117, 101], rfl, rfl, by decide⟩
        · rw [if_neg hlen] at h; exact absurd h (by simp)
      · rw [if_neg h116] at h
        by_cases h102 : c = 102
        · subst h102
          rw [if_pos rfl] at h
          by_cases hlen : 4 ≤ rest.length
          · rw [if_pos hlen] at h
            cases h
            exact ⟨102, rest, [97, 108, 115, 101], rfl, rfl, by decide⟩
          · rw [if_neg hlen] at h; exact absurd h (by simp)
        · rw [if_neg h102] at h
          by_cases h110 : c = 110
          · subst h110
            rw [if_pos rfl] at h
            by_cases hlen : 3 ≤ rest.length
            · rw [if_pos hlen] at h
              cases h
              exact ⟨110, rest, [117, 108, 108], rfl, rfl, by decide⟩
            · rw [if_neg hlen] at h; exact absurd h (by simp)
          · rw [if_neg h110] at h
            by_cases h57 : kindByByte c = 57
            · rw [if_pos h57] at h
              cases h
              have hnum : isNumChar c = true := kindByByte_num_isNumChar h57
              refine ⟨c, rest, rest.takeWhile isNumChar, rfl, ?_, by omega⟩
              simp [scanNumber, List.takeWhile_cons_of_pos hnum]
            · rw [if_neg h57] at h
              by_cases h0 : kindByByte c = 0
              · rw [if_neg (by simp [h0])] at h
                exact absurd h (by simp)
              · rw [if_pos (by simp [h0])] at h
                cases h
                exact ⟨c, r, [], rfl, rfl, h0⟩

/-- Inversion for the EndOfInput result of `nextToken`. -/
theorem nextToken_none_inv {l r : List Nat} (h : nextToken l = .ok (none, r)) :
    skipWS l = [] ∧ r = [] := by
  rcases nextToken_shape h with ⟨_, h1, h2⟩ | ⟨c, rest, tl, _, hsome, _⟩
  · exact ⟨h1, h2⟩
  · exact absurd hsome (by simp)

/-- A successful token with kind 0 can only be the EndOfInput token. -/
theorem nextToken_kind_zero {l : List Nat} {t : Token} {r : List Nat}
    (h : nextToken l = .ok (t, r)) (hk : tokKind t = 0) :
    t = none ∧ skipWS l = [] ∧ r = [] := by
  rcases nextToken_shape h with ⟨h0, h1, h2⟩ | ⟨c, rest, tl, _, hsome, hkind⟩
  · exact ⟨h0, h1, h2⟩
  · rw [hsome] at hk
    simp only [tokKind, List.headD_cons] at hk
    exact absurd hk hkind

/-- When `ContinueArray` reports an element present, the cursor sits exactly
at the start of that element: no leading whitespace and not at end of
input. -/
theorem ContinueArrayF_true_inv {f : Nat} {raw r : List Nat}
    (h : ContinueArrayF f raw = .ok (true, r)) : skipWS r = r ∧ r ≠ [] := by
  induction f generalizing raw r with
  | zero => exact absurd h (by simp [ContinueArrayF])
  | succ f ih =>
    rw [ContinueArrayF] at h
    by_cases h44 : (peekNextTokenKind raw).1 = 44
    · rw [if_pos h44] at h
      cases hnt : nextToken (peekNextTokenKind raw).2 with
      | error e => rw [hnt] at h; simp at h
      | ok p =>
        rw [hnt] at h
        obtain ⟨t0, r0⟩ := p
        simp only [except_ok_bind] at h
        exact ih h
    · rw [if_neg h44] at h
      by_cases h93 : (peekNextTokenKind raw).1 = 93
      · rw [if_pos h93] at h
        cases hnt : nextToken (peekNextTokenKind raw).2 with
        | error e => rw [hnt] at h; simp at h
        | ok p =>
          rw [hnt] at h
          obtain ⟨t0, r0⟩ := p
          simp only [except_ok_bind] at h
          simp at h
      · rw [if_neg h93] at h
        by_cases h0 : (peekNextTokenKind raw).1 = 0
        · rw [if_pos h0] at h; simp at h
        · rw [if_neg h0] at h
          simp only [Except.ok.injEq, Prod.mk.injEq, true_and] at h
          subst h
          constructor
          · rw [peekNextTokenKind_snd, skipWS_idem, ← peekNextTokenKind_snd]
          · intro hnil
            rw [peekNextTokenKind_snd] at hnil
            apply h0
            rw [peekNextTokenKind, hnil]

/-- Core synchronization between `Raw.Value` and `Raw.Skip` at equal fuel:
whenever materialization succeeds (and a token is actually present, so the
EndOfInput branch of `Value`, which `Skip` rejects, does not apply), skipping
succeeds as well and leaves the cursor at exactly the same remainder. -/
theorem valueGo_skipGo_sync : ∀ f : Nat,
    (∀ raw v r, ValueGo f .top raw = .ok (v, r) → skipWS raw ≠ [] →
      SkipGo f .top raw = .ok r) ∧
    (∀ acc raw v r, ValueGo f (.objLoop acc) raw = .ok (v, r) →
      SkipGo f .objLoop raw = .ok r) ∧
    (∀ acc raw v r, ValueGo f (.arrLoop acc) raw = .ok (v, r) →
      SkipGo f .arrLoop raw = .ok r) := by
  intro f
  induction f with
  | zero =>
    refine ⟨fun raw v r h _ => absurd h (by simp [ValueGo]),
      fun acc raw v r h => absurd h (by simp [ValueGo]),
      fun acc raw v r h => absurd h (by simp [ValueGo])⟩
  | succ f ih =>
    obtain ⟨ihTop, ihObj, ihArr⟩ := ih
    refine ⟨?_, ?_, ?_⟩
    · -- top
      intro raw v r h hne
      simp only [ValueGo] at h
      cases hnt : nextToken raw with
      | error e => rw [hnt] at h; simp at h
      | ok p =>
        obtain ⟨t0, raw1⟩ := p
        rw [hnt] at h
        simp only [except_ok_bind] at h
        by_cases hk0 : tokKind t0 = 0
        · exact absurd (nextToken_kind_zero hnt hk0).2.1 hne
        · rw [if_neg hk0] at h
          simp only [SkipGo]
          rw [hnt]
          simp only [except_ok_bind]
          by_cases hk123 : tokKind t0 = 123
          · rw [if_pos hk123] at h
            rw [if_pos hk123]
            exact ihObj [] raw1 v r h
          · rw [if_neg hk123] at h
            rw [if_neg hk123]
            by_cases hk91 : tokKind t0 = 91
            · rw [if_pos hk91] at h
              rw [if_pos hk91]
              exact ihArr [] raw1 v r h
            · rw [if_neg hk91] at h
              rw [if_neg hk91]
              by_cases hks : isScalarKind (tokKind t0) = true
              · rw [if_pos hks] at h
                rw [if_pos hks]
                cases hts : TokenScalar t0 with
                | error e => rw [hts] at h; simp at h
                | ok v0 =>
                  rw [hts] at h
                  simp only [except_map_ok, Except.ok.injEq, Prod.mk.injEq] at h
                  rw [h.2]
              · rw [if_neg hks] at h
                simp at h
    · -- objLoop
      intro acc raw v r h
      simp only [ValueGo] at h
      cases hco : ContinueObject raw with
      | error e => rw [hco] at h; simp at h
      | ok p =>
        obtain ⟨key, raw2⟩ := p
        rw [hco] at h
        simp only [except_ok_bind] at h
        split at h
        case _ _ =>
          simp only [Except.ok.injEq, Prod.mk.injEq] at h
          simp only [SkipGo]
          rw [hco]
          simp only [except_ok_bind]
          rw [h.2]
        case _ _ k =>
          cases hts : TokenStr (some k) with
          | error e => rw [hts] at h; simp at h
          | ok ks =>
            rw [hts] at h
            simp only [except_ok_bind] at h
            cases hv : ValueGo f .top raw2 with
            | error e => rw [hv] at h; simp at h
            | ok q =>
              obtain ⟨v0, raw3⟩ := q
              rw [hv] at h
              simp only [except_ok_bind] at h
              by_cases hsw : skipWS raw2 = []
              · exfalso
                cases f with
                | zero => simp [ValueGo] at hv
                | succ f2 =>
                  simp only [ValueGo] at hv
                  rw [nextToken_of_skipWS_nil hsw] at hv
                  simp only [except_ok_bind] at hv
                  rw [if_pos (show tokKind none = 0 from rfl)] at hv
                  simp only [Except.ok.injEq, Prod.mk.injEq] at hv
                  rw [← hv.2] at h
                  simp only [ValueGo] at h
                  rw [show ContinueObject [] = Except.error GoPanic.invalidJSON
                    from rfl] at h
                  simp at h
              · have hskip2 : SkipGo f .top raw2 = .ok raw3 :=
                  ihTop raw2 v0 raw3 hv hsw
                have hloop : SkipGo f .objLoop raw3 = .ok r :=
                  ihObj (mapInsert acc ks v0) raw3 v r h
                simp only [SkipGo]
                rw [hco]
                simp only [except_ok_bind]
                rw [hskip2]
                simp only [except_ok_bind]
                exact hloop
    · -- arrLoop
      intro acc raw v r h
      simp only [ValueGo] at h
      cases hca : ContinueArray raw with
      | error e => rw [hca] at h; simp at h
      | ok p =>
        obtain ⟨more, raw2⟩ := p
        rw [hca] at h
        simp only [except_ok_bind] at h
        cases more with
        | false =>
          simp only [Bool.false_eq_true, if_false] at h
          simp only [Except.ok.injEq, Prod.mk.injEq] at h
          simp only [SkipGo]
          rw [hca]
          simp only [except_ok_bind, Bool.false_eq_true, if_false]
          rw [h.2]
        | true =>
          simp only [if_true] at h
          cases hv : ValueGo f .top raw2 with
          | error e => rw [hv] at h; simp at h
          | ok q =>
            obtain ⟨v0, raw3⟩ := q
            rw [hv] at h
            simp only [except_ok_bind] at h
            have htrue : ContinueArrayF (raw.length + 1) raw = .ok (true, raw2) := by
              rw [← ContinueArray]; exact hca
            obtain ⟨hidem, hne2⟩ := ContinueArrayF_true_inv htrue
            have hsw : skipWS raw2 ≠ [] := by rw [hidem]; exact hne2
            have hskip2 : SkipGo f .top raw2 = .ok raw3 :=
              ihTop raw2 v0 raw3 hv hsw
            have hloop : SkipGo f .arrLoop raw3 = .ok r :=
              ihArr (acc ++ [v0]) raw3 v r h
            simp only [SkipGo]
            rw [hca]
            simp only [except_ok_bind, if_true]
            rw [hskip2]
            simp only [except_ok_bind]
            exact hloop

theorem dropWhile_head_not {p : Nat → Bool} {l : List Nat} {d : Nat}
    {rest : List Nat} (h : List.dropWhile p l = d :: rest) : p d = false := by
  induction l with
  | nil => simp at h
  | cons a l ih =>
    rw [List.dropWhile_cons] at h
    split at h
    · exact ih h
    · cases h
      simp_all

theorem nextToken_cons {data : List Nat} {c : Nat} {rest : List Nat}
    (hs : skipWS data = c :: rest) :
    nextToken data = nextTokenCore (c :: rest) := by
  rw [nextToken, hs]

theorem literalsExactF_cons {f : Nat} {raw : List Nat} {c : Nat}
    {rest : List Nat} (hs : skipWS raw = c :: rest) :
    literalsExactF (f + 1) raw =
      (if c = 116 then
        ((c :: rest).take 4 == [116, 114, 117, 101]) &&
          literalsExactF f ((c :: rest).drop 4)
      else if c = 102 then
        ((c :: rest).take 5 == [102, 97, 108, 115, 101]) &&
          literalsExactF f ((c :: rest).drop 5)
      else if c = 110 then
        ((c :: rest).take 4 == [110, 117, 108, 108]) &&
          literalsExactF f ((c :: rest).drop 4)
      else
        match nextToken (c :: rest) with
        | .ok (some _, rem) => literalsExactF f rem
        | _ => true) := by
  rw [literalsExactF, hs]

/-- Coverage: a successful tokenization run whose literal spans are spelled
canonically decomposes the input into alternating whitespace runs and the
token raw spans, each input byte covered exactly once and in order. -/
theorem tokenize_covers : ∀ f raw ts, tokenizeAllF f raw = .ok ts →
    literalsExactF f raw = true → Covers raw ts := by
  intro f
  induction f with
  | zero => intro raw ts h _; exact absurd h (by simp [tokenizeAllF])
  | succ f ih =>
    intro raw ts h hlit
    rw [tokenizeAllF] at h
    obtain ⟨ws, hwsall, hdecomp⟩ := skipWS_decomp raw
    cases hs : skipWS raw with
    | nil =>
      rw [nextToken_of_skipWS_nil hs] at h
      simp only [except_ok_bind] at h
      replace h : (Except.ok [] : Except GoPanic (List (List Nat))) = .ok ts := h
      cases h
      exact Covers.nil raw ((skipWS_nil_iff raw).mp hs)
    | cons c rest =>
      rw [hs] at hdecomp
      rw [nextToken_cons hs, nextTokenCore] at h
      rw [literalsExactF_cons hs] at hlit
      by_cases h116 : c = 116
      · subst h116
        rw [if_pos rfl] at h hlit
        rw [Bool.and_eq_true, beq_iff_eq] at hlit
        obtain ⟨htake, hrec⟩ := hlit
        have hlen : 3 ≤ rest.length := by
          have := congrArg List.length htake
          rw [List.length_take] at this
          simp at this
          omega
        rw [if_pos hlen] at h
        simp only [except_ok_bind] at h
        replace h : (tokenizeAllF f (rest.drop 3)).map
            (fun ts => [116, 114, 117, 101] :: ts) = .ok ts := h
        cases hrec2 : tokenizeAllF f (rest.drop 3) with
        | error e => rw [hrec2] at h; simp at h
        | ok ts2 =>
          rw [hrec2] at h
          simp only [except_map_ok, Except.ok.injEq] at h
          subst h
          have hspan : 116 :: rest = [116, 114, 117, 101] ++ rest.drop 3 := by
            have := List.take_append_drop 4 (116 :: rest)
            rw [htake] at this
            exact this.symm
          rw [hdecomp, hspan, ← List.append_assoc]
          exact Covers.cons ws [116, 114, 117, 101] (rest.drop 3) ts2 hwsall
            (ih (rest.drop 3) ts2 hrec2 hrec)
      · rw [if_neg h116] at h hlit
        by_cases h102 : c = 102
        · subst h102
          rw [if_pos rfl] at h hlit
          rw [Bool.and_eq_true, beq_iff_eq] at hlit
          obtain ⟨htake, hrec⟩ := hlit
          have hlen : 4 ≤ rest.length := by
            have := congrArg List.length htake
            rw [List.length_take] at this
            simp at this
            omega
          rw [if_pos hlen] at h
          simp only [except_ok_bind] at h
          replace h : (tokenizeAllF f (rest.drop 4)).map
              (fun ts => [102, 97, 108, 115, 101] :: ts) = .ok ts := h
          cases hrec2 : tokenizeAllF f (rest.drop 4) with
          | error e => rw [hrec2] at h; simp at h
          | ok ts2 =>
            rw [hrec2] at h
            simp only [except_map_ok, Except.ok.injEq] at h
            subst h
            have hspan : 102 :: rest = [102, 97, 108, 115, 101] ++ rest.drop 4 := by
              have := List.take_append_drop 5 (102 :: rest)
              rw [htake] at this
              exact this.symm
            rw [hdecomp, hspan, ← List.append_assoc]
            exact Covers.cons ws [102, 97, 108, 115, 101] (rest.drop 4) ts2 hwsall
              (ih (rest.drop 4) ts2 hrec2 hrec)
        · rw [if_neg h102] at h hlit
          by_cases h110 : c = 110
          · subst h110
            rw [if_pos rfl] at h hlit
            rw [Bool.and_eq_true, beq_iff_eq] at hlit
            obtain ⟨htake, hrec⟩ := hlit
            have hlen : 3 ≤ rest.length := by
              have := congrArg List.length htake
              rw [List.length_take] at this
              simp at this
              omega
            rw [if_pos hlen] at h
            simp only [except_ok_bind] at h
            replace h : (tokenizeAllF f (rest.drop 3)).map
                (fun ts => [110, 117, 108, 108] :: ts) = .ok ts := h
            cases hrec2 : tokenizeAllF f (rest.drop 3) with
            | error e => rw [hrec2] at h; simp at h
            | ok ts2 =>
              rw [hrec2] at h
              simp only [except_map_ok, Except.ok.injEq] at h
              subst h
              have hspan : 110 :: rest = [110, 117, 108, 108] ++ rest.drop 3 := by
                have := List.take_append_drop 4 (110 :: rest)
                rw [htake] at this
                exact this.symm
              rw [hdecomp, hspan, ← List.append_assoc]
              exact Covers.cons ws [110, 117, 108, 108] (rest.drop 3) ts2 hwsall
                (ih (rest.drop 3) ts2 hrec2 hrec)
          · rw [if_neg h110] at h hlit
            have hcws : isWhitespace c = false := skipWS_head_not_ws hs
            have hnc : nextToken (c :: rest) = nextTokenCore (c :: rest) := by
              rw [nextToken, skipWS_cons_not_ws hcws]
            by_cases h34 : c = 34
            · subst h34
              rw [if_pos rfl] at h
              cases hsc : scanString (34 :: rest) with
              | error e => rw [hsc] at h; simp at h
              | ok p =>
                obtain ⟨tok, rem⟩ := p
                rw [hsc] at h
                simp only [except_map_ok, except_ok_bind] at h
                replace h : (tokenizeAllF f rem).map (fun ts => tok :: ts)
                    = .ok ts := h
                have hnt34 : nextToken (34 :: rest) = .ok (some tok, rem) := by
                  rw [hnc, nextTokenCore, if_pos rfl, hsc]
                  rfl
                rw [hnt34] at hlit
                replace hlit : literalsExactF f rem = true := hlit
                cases hrec2 : tokenizeAllF f rem with
                | error e => rw [hrec2] at h; simp at h
                | ok ts2 =>
                  rw [hrec2] at h
                  simp only [except_map_ok, Except.ok.injEq] at h
                  subst h
                  have hspan : 34 :: rest = tok ++ rem := scanString_decomp hsc
                  rw [hdecomp, hspan, ← List.append_assoc]
                  exact Covers.cons ws tok rem ts2 hwsall
                    (ih rem ts2 hrec2 hlit)
            · rw [if_neg h34] at h
              by_cases h57 : kindByByte c = 57
              · rw [if_pos h57] at h
                simp only [except_ok_bind] at h
                replace h : (tokenizeAllF f ((c :: rest).dropWhile isNumChar)).map
                    (fun ts => ((c :: rest).takeWhile isNumChar) :: ts)
                    = .ok ts := h
                have hntn : nextToken (c :: rest) =
                    .ok (some ((c :: rest).takeWhile isNumChar),
                      (c :: rest).dropWhile isNumChar) := by
                  rw [hnc, nextTokenCore, if_neg h34, if_neg h116, if_neg h102,
                    if_neg h110, if_pos h57]
                  rfl
                rw [hntn] at hlit
                replace hlit : literalsExactF f ((c :: rest).dropWhile isNumChar)
                    = true := hlit
                cases hrec2 : tokenizeAllF f ((c :: rest).dropWhile isNumChar) with
                | error e => rw [hrec2] at h; simp at h
                | ok ts2 =>
                  rw [hrec2] at h
                  simp only [except_map_ok, Except.ok.injEq] at h
                  subst h
                  have hcov := Covers.cons ws ((c :: rest).takeWhile isNumChar)
                    ((c :: rest).dropWhile isNumChar) ts2 hwsall
                    (ih _ ts2 hrec2 hlit)
                  rw [List.append_assoc,
                    List.takeWhile_append_dropWhile isNumChar (c :: rest)] at hcov
                  rw [hdecomp]
                  exact hcov
              · rw [if_neg h57] at h
                by_cases h0 : kindByByte c = 0
                · rw [if_neg (by simp [h0])] at h
                  simp at h
                · rw [if_pos (by simp [h0])] at h
                  simp only [except_ok_bind] at h
                  replace h : (tokenizeAllF f rest).map (fun ts => [c] :: ts)
                      = .ok ts := h
                  have hntp : nextToken (c :: rest) = .ok (some [c], rest) := by
                    rw [hnc, nextTokenCore, if_neg h34, if_neg h116, if_neg h102,
                      if_neg h110, if_neg h57, if_pos (by simp [h0])]
                  rw [hntp] at hlit
                  replace hlit : literalsExactF f rest = true := hlit
                  cases hrec2 : tokenizeAllF f rest with
                  | error e => rw [hrec2] at h; simp at h
                  | ok ts2 =>
                    rw [hrec2] at h
                    simp only [except_map_ok, Except.ok.injEq] at h
                    subst h
                    rw [hdecomp, show c :: rest = [c] ++ rest from rfl,
                      ← List.append_assoc]
                    exact Covers.cons ws [c] rest ts2 hwsall (ih rest ts2 hrec2 hlit)

/-! Claim theorems. -/

/-- C1 (amended): `EnsureEOF` succeeds whenever only whitespace (or nothing)
is left, and on a remainder whose first non-whitespace byte is `c` it
succeeds exactly when `c` has no token classification (`kindByByte c = 0`) —
so it aborts on classifiable leftover content but does not detect an
unclassifiable leading byte. -/
theorem ensureEOF_whitespace_or_unclassified (raw : List Nat) :
    ((∀ b ∈ raw, isWhitespace b = true) → EnsureEOF raw = .ok ()) ∧
    (∀ c rest, skipWS raw = c :: rest →
      (EnsureEOF raw = .ok () ↔ kindByByte c = 0)) := by
  constructor
  · intro h
    rw [EnsureEOF, peekNextTokenKind, (skipWS_nil_iff raw).mpr h]
    simp
  · intro c rest hs
    rw [EnsureEOF, peekNextTokenKind, hs]
    by_cases h0 : kindByByte c = 0
    · simp [h0]
    · simp [h0]

/-- C1 (counterexample to the claim as stated): the buffer `x` (byte 120)
contains non-whitespace content, yet `EnsureEOF` succeeds, because byte 120
has no entry in `kindByByte` and therefore peeks as EndOfInput. -/
theorem ensureEOF_unclassified_cex :
    EnsureEOF [120] = .ok () ∧ isWhitespace 120 = false :=
  ⟨rfl, rfl⟩

/-- C1 witness: the amended characterization applied at concrete inputs. -/
theorem ensureEOF_whitespace_or_unclassified_witness :
    EnsureEOF [32] = .ok () ∧ ¬ EnsureEOF [44] = .ok () :=
  ⟨(ensureEOF_whitespace_or_unclassified [32]).1 (by decide),
   fun h => absurd
     (((ensureEOF_whitespace_or_unclassified [44]).2 44 [] rfl).mp h)
     (by decide)⟩

/-- C2 (amended): for every input that tokenizes to exhaustion and whose
literal tokens are spelled exactly canonically (as valid JSON inputs are),
the input decomposes as alternating inter-token whitespace runs and the
returned tokens' raw spans, in order — concatenating the tokens' raw text
therefore reproduces the input with inter-token whitespace removed, every
other byte covered exactly once and in the original order. -/
theorem tokenize_covers_nonws (raw : List Nat) (ts : List (List Nat))
    (h : tokenizeAll raw = .ok ts) (hl : literalsExact raw = true) :
    Covers raw ts :=
  tokenize_covers (raw.length + 1) raw ts h hl

/-- C2 (counterexample to the claim as stated): the valid JSON input
`"a b"` tokenizes to a single string token whose raw text contains the
whitespace byte 32, so the concatenation of raw texts is not the
subsequence of non-whitespace input bytes. -/
theorem tokenize_covers_cex :
    tokenizeAll [34, 97, 32, 98, 34] = .ok [[34, 97, 32, 98, 34]] ∧
    List.flatten [[34, 97, 32, 98, 34]] ≠
      ([34, 97, 32, 98, 34] : List Nat).filter (fun b => !isWhitespace b) :=
  ⟨rfl, by decide⟩

/-- C2 witness: the coverage decomposition at the concrete input `[1]`. -/
theorem tokenize_covers_nonws_witness :
    Covers [91, 49, 93] [[91], [49], [93]] :=
  tokenize_covers_nonws [91, 49, 93] [[91], [49], [93]] rfl rfl

/-- C3: whenever the remainder begins with a complete JSON value — i.e. a
token is present and `Value` succeeds, returning remainder `r` — `Skip`
succeeds from the same state and leaves the cursor at exactly the same
remainder `r`.  Both therefore consume an identical span, and a subsequent
`Next()` runs on the identical remainder and yields the identical token. -/
theorem skip_value_same_span (raw : List Nat) (v : JValue) (r : List Nat)
    (hne : skipWS raw ≠ []) (h : Value raw = .ok (v, r)) :
    RawSkip raw = .ok r :=
  (valueGo_skipGo_sync (raw.length + 1)).1 raw v r h hne

/-- C3 witness: on `[1] 2`, `Value` consumes the array and `Skip` lands on
the identical remainder (the space and the `2`). -/
theorem skip_value_same_span_witness :
    RawSkip [91, 49, 93, 32, 50] = .ok [32, 50] :=
  skip_value_same_span [91, 49, 93, 32, 50] (.arr [.num [49]]) [32, 50]
    (by decide) rfl

/-- C4: evaluation of the unescaping path at the failing input and at the
claim's example.  On the empty string token `""` the code aborts with a Go
runtime index-out-of-range panic (evaluating `&s[0]` on the empty body in
the no-escape fast path) instead of returning the empty text; on
`"\n\t☺"` it correctly produces the three-character text newline, tab,
U+263A (UTF-8 bytes 10, 9, 226 152 186). -/
theorem str_empty_string_bug :
    TokenStr (some [34, 34]) = .error .runtimeError ∧
    unquoteString [34, 34] = .error .runtimeError ∧
    TokenStr (some [34, 92, 110, 92, 116, 92, 117, 50, 54, 51, 65, 34]) =
      .ok [10, 9, 226, 152, 186] ∧
    unquoteString [34, 92, 110, 92, 116, 92, 117, 50, 54, 51, 65, 34] =
      .ok [10, 9, 226, 152, 186] :=
  ⟨rfl, rfl, rfl, rfl⟩

/-- C5: `Int64` converts the extreme signed 64-bit decimal texts without
overflow and `Uint64` converts the maximal unsigned 64-bit text; texts one
past the range, malformed digit sequences, and a String-kind token all fail
with the same fatal shape carrying the token raw text. -/
theorem int64_uint64_extremes :
    TokenInt64 (some [57, 50, 50, 51, 51, 55, 50, 48, 51, 54, 56, 53, 52,
      55, 55, 53, 56, 48, 55]) = .ok (9223372036854775807 : Int) ∧
    TokenInt64 (some [45, 57, 50, 50, 51, 51, 55, 50, 48, 51, 54, 56, 53,
      52, 55, 55, 53, 56, 48, 56]) = .ok (-9223372036854775808 : Int) ∧
    TokenUint64 (some [49, 56, 52, 52, 54, 55, 52, 52, 48, 55, 51, 55, 48,
      57, 53, 53, 49, 54, 49, 53]) = .ok (18446744073709551615 : Nat) ∧
    TokenInt64 (some [57, 50, 50, 51, 51, 55, 50, 48, 51, 54, 56, 53, 52,
      55, 55, 53, 56, 48, 56]) = .error (.unexpectedJSON [57, 50, 50, 51,
      51, 55, 50, 48, 51, 54, 56, 53, 52, 55, 55, 53, 56, 48, 56]) ∧
    TokenUint64 (some [49, 56, 52, 52, 54, 55, 52, 52, 48, 55, 51, 55, 48,
      57, 53, 53, 49, 54, 49, 54]) = .error (.unexpectedJSON [49, 56, 52,
      52, 54, 55, 52, 52, 48, 55, 51, 55, 48, 57, 53, 53, 49, 54, 49, 54]) ∧
    TokenInt64 (some [34, 52, 50, 34]) =
      .error (.unexpectedJSON [34, 52, 50, 34]) ∧
    TokenInt64 (some [49, 46, 53]) = .error (.unexpectedJSON [49, 46, 53]) :=
  ⟨rfl, rfl, rfl, rfl, rfl, rfl, rfl⟩

/-- C6 (amended): aborts raised by the code's own checks have the two
claimed shapes — `Token.Int` failures always carry the offending token raw
text, while the grammar-level violations (missing colon in `{"a" 1}`,
unterminated string, unterminated array, unclassifiable byte) abort with
the fixed message carrying no token text; numeric-conversion failures carry
the raw text like kind mismatches.  (Truncated literals additionally abort
through a Go runtime bounds check outside both shapes; see the
counterexample.) -/
theorem panic_shapes_amended :
    (∀ (t : Token) (e : GoPanic), TokenInt t = .error e →
      e = .unexpectedJSON (tokRaw t)) ∧
    Value [123, 34, 97, 34, 32, 49, 125] = .error .invalidJSON ∧
    nextToken [34, 120] = .error .invalidJSON ∧
    ContinueArray [] = .error .invalidJSON ∧
    nextToken [120] = .error .invalidJSON ∧
    TokenInt (some [34, 52, 50, 34]) =
      .error (.unexpectedJSON [34, 52, 50, 34]) ∧
    TokenInt64 (some [49, 46, 53]) = .error (.unexpectedJSON [49, 46, 53]) := by
  refine ⟨?_, rfl, rfl, rfl, rfl, rfl, rfl⟩
  intro t e h
  rw [TokenInt] at h
  split_ifs at h with hk
  · cases hp : goParseInt (tokRaw t) with
    | some v => rw [hp] at h; simp at h
    | none =>
      rw [hp] at h
      simp only [Except.error.injEq] at h
      exact h.symm
  · simp only [Except.error.injEq] at h
    exact h.symm

/-- C6 (counterexample to the claim as stated): lexing the truncated
literal `tr` aborts with a Go runtime panic (slice bounds out of range on
`data[start+4:]`), which is neither the fixed grammar message nor a message
carrying token text. -/
theorem panic_shapes_cex :
    nextToken [116, 114] = .error .runtimeError ∧
    GoPanic.runtimeError ≠ .invalidJSON ∧
    GoPanic.runtimeError ≠ .unexpectedJSON [116, 114] :=
  ⟨rfl, by decide, by decide⟩

/-- C6 witness: the universally quantified component applied at a concrete
String-kind token. -/
theorem panic_shapes_amended_witness :
    GoPanic.unexpectedJSON [34, 52, 50, 34] =
      .unexpectedJSON (tokRaw (some [34, 52, 50, 34])) :=
  panic_shapes_amended.1 (some [34, 52, 50, 34])
    (.unexpectedJSON [34, 52, 50, 34]) rfl

/-- C7 (amended): if the next token is the Null literal, `Null()` consumes
it and reports true; otherwise it reports false and leaves the cursor at
the start of the next token — it does not consume any token bytes, but it
does persistently consume the leading whitespace (the claim's "leaves the
cursor untouched" fails on that whitespace; see the counterexample). -/
theorem null_probe_amended (raw : List Nat) :
    ((peekNextTokenKind raw).1 = 110 → ∀ t r, nextToken raw = .ok (t, r) →
      RawNull raw = .ok (true, r)) ∧
    ((peekNextTokenKind raw).1 ≠ 110 →
      RawNull raw = .ok (false, skipWS raw) ∧
      ∃ ws, (∀ b ∈ ws, isWhitespace b = true) ∧ raw = ws ++ skipWS raw) := by
  constructor
  · intro h110 t r hnt
    rw [RawNull, if_pos h110, peekNextTokenKind_snd, nextToken_skipWS, hnt]
    rfl
  · intro h110
    rw [RawNull, if_neg h110, peekNextTokenKind_snd]
    obtain ⟨ws, h1, h2⟩ := skipWS_decomp raw
    exact ⟨rfl, ws, h1, h2⟩

/-- C7 (counterexample to the claim as stated): on the buffer consisting of
a space and the digit 1 the next token is not Null, `Null()` reports false,
but the cursor has moved (the leading space byte was consumed), so the
cursor is not left untouched. -/
theorem null_probe_cex :
    RawNull [32, 49] = .ok (false, [49]) ∧ ([49] : List Nat) ≠ [32, 49] :=
  ⟨rfl, by decide⟩

/-- C7 witness: the amended statement applied on `null` (consumes the
literal, reports true) and on a non-null next token (reports false, cursor
at the token start). -/
theorem null_probe_amended_witness :
    RawNull [110, 117, 108, 108] = .ok (true, []) ∧
    RawNull [32, 49] = .ok (false, [49]) :=
  ⟨(null_probe_amended [110, 117, 108, 108]).1 (by decide)
      (some [110, 117, 108, 108]) [] rfl,
   ((null_probe_amended [32, 49]).2 (by decide)).1⟩

/-- C8: `Peek` is idempotent — peeking again from the state a peek left
behind returns the identical kind and remainder; the remainder a peek
leaves is exactly the input with its leading whitespace run removed, so no
call ever advances past the start of the next token. -/
theorem peek_idempotent (raw : List Nat) :
    peekNextTokenKind ((peekNextTokenKind raw).2) = peekNextTokenKind raw ∧
    (peekNextTokenKind raw).2 = skipWS raw ∧
    ∃ ws, (∀ b ∈ ws, isWhitespace b = true) ∧
      raw = ws ++ (peekNextTokenKind raw).2 := by
  refine ⟨?_, peekNextTokenKind_snd raw, ?_⟩
  · rw [peekNextTokenKind_snd, peekNextTokenKind_skipWS]
  · rw [peekNextTokenKind_snd]
    exact skipWS_decomp raw

/-- C9: when the first non-whitespace byte classifies as Number, `nextToken`
returns the maximal prefix over the number character set — every token byte
is in the set and the remainder is empty or starts with a non-member byte —
and the lexically permissive shape `1.2.3` lexes as one Number token whose
typed conversion `Float()` then aborts fatally. -/
theorem number_maximal_munch :
    (∀ data c rest, skipWS data = c :: rest → kindByByte c = 57 →
      ∃ tok rem, nextToken data = .ok (some tok, rem) ∧
        c :: rest = tok ++ rem ∧ tok ≠ [] ∧
        (∀ b ∈ tok, isNumChar b = true) ∧
        (rem = [] ∨ ∃ d rest2, rem = d :: rest2 ∧ isNumChar d = false)) ∧
    nextToken [49, 46, 50, 46, 51] = .ok (some [49, 46, 50, 46, 51], []) ∧
    TokenFloat (some [49, 46, 50, 46, 51]) =
      .error (.unexpectedJSON [49, 46, 50, 46, 51]) := by
  refine ⟨?_, rfl, rfl⟩
  intro data c rest hs h57
  have h34 : c ≠ 34 := by intro hc; rw [hc] at h57; exact absurd h57 (by decide)
  have h116 : c ≠ 116 := by intro hc; rw [hc] at h57; exact absurd h57 (by decide)
  have h102 : c ≠ 102 := by intro hc; rw [hc] at h57; exact absurd h57 (by decide)
  have h110 : c ≠ 110 := by intro hc; rw [hc] at h57; exact absurd h57 (by decide)
  have hnum : isNumChar c = true := kindByByte_num_isNumChar h57
  rw [nextToken_cons hs, nextTokenCore, if_neg h34, if_neg h116, if_neg h102,
    if_neg h110, if_pos h57]
  refine ⟨(c :: rest).takeWhile isNumChar, (c :: rest).dropWhile isNumChar,
    rfl, (List.takeWhile_append_dropWhile _ _).symm, ?_,
    fun b hb => List.mem_takeWhile_imp hb, ?_⟩
  · rw [List.takeWhile_cons_of_pos hnum]
    simp
  · cases hd : (c :: rest).dropWhile isNumChar with
    | nil => exact .inl rfl
    | cons d rest2 => exact .inr ⟨d, rest2, rfl, dropWhile_head_not hd⟩

/-- C9 witness: the maximal-munch characterization applied to a buffer with
leading whitespace and a one-digit number. -/
theorem number_maximal_munch_witness :
    ∃ tok rem, nextToken [32, 49] = .ok (some tok, rem) ∧
      (49 : Nat) :: [] = tok ++ rem ∧ tok ≠ [] ∧
      (∀ b ∈ tok, isNumChar b = true) ∧
      (rem = [] ∨ ∃ d rest2, rem = d :: rest2 ∧ isNumChar d = false) :=
  number_maximal_munch.1 [32, 49] 49 [] rfl rfl

/-- C10: on an empty or all-whitespace remainder, `Skip` aborts with the
fixed grammar-violation message (its switch falls to the default on the
EndOfInput token), while `Value` returns the absent value and `Next`
returns the EndOfInput token: skipping requires a value to be present,
materializing does not. -/
theorem skip_empty_vs_value_empty (raw : List Nat) (h : skipWS raw = []) :
    RawSkip raw = .error .invalidJSON ∧ Value raw = .ok (.absent, []) ∧
    nextToken raw = .ok (none, []) := by
  refine ⟨?_, ?_, nextToken_of_skipWS_nil h⟩
  · rw [RawSkip]
    simp only [SkipGo]
    rw [nextToken_of_skipWS_nil h]
    simp only [except_ok_bind]
    norm_num [tokKind, isScalarKind]
  · rw [Value]
    simp only [ValueGo]
    rw [nextToken_of_skipWS_nil h]
    simp only [except_ok_bind]
    norm_num [tokKind]

/-- C10 witness: the contrast evaluated on the one-space buffer. -/
theorem skip_empty_vs_value_empty_witness :
    RawSkip [32] = .error .invalidJSON ∧ Value [32] = .ok (.absent, []) ∧
    nextToken [32] = .ok (none, []) :=
  skip_empty_vs_value_empty [32] rfl
